import Mathlib

/-!
Formal model of `see_sample_dataset.py`.

The script loads a dataset split via an external collaborator, prints the
first row, and serializes that row to `sample_trace_row.json` with
`json.dump(row, f, ensure_ascii=False, indent=2)` inside a `with open(...)`
block.  We embed the Python values a row can hold, the exact text produced
by `json.dump` with those options (including the chunks emitted before a
`TypeError` on a non-serializable value), a parser modelling `json.loads`
for the round-trip property, Python's `repr` rendering used by `print`,
and the script itself as a trace of observable events (collaborator call,
stdout write, file open with truncation, file write, file close).
-/

namespace SeeSample

/-- Characters Python's `json` module treats as whitespace. -/
def isWsChar (c : Char) : Bool :=
  c = ' ' || c = '\t' || c = '\n' || c = '\r'

/-- Drop leading JSON whitespace. -/
def skipWs : List Char → List Char
  | [] => []
  | c :: r => if isWsChar c then skipWs r else c :: r

/-- The opening curly brace character. -/
def lbrace : Char := Char.ofNat 123

/-- The closing curly brace character. -/
def rbrace : Char := Char.ofNat 125

/-- The single-quote character used by Python `repr` of strings. -/
def squote : Char := Char.ofNat 39

/-- Decimal digit character for a value below ten. -/
def digitChar : Nat → Char
  | 0 => '0' | 1 => '1' | 2 => '2' | 3 => '3' | 4 => '4'
  | 5 => '5' | 6 => '6' | 7 => '7' | 8 => '8' | 9 => '9'
  | _ => '0'

/-- Lower-case hexadecimal digit character for a value below sixteen. -/
def hexDigitChar : Nat → Char
  | 0 => '0' | 1 => '1' | 2 => '2' | 3 => '3' | 4 => '4'
  | 5 => '5' | 6 => '6' | 7 => '7' | 8 => '8' | 9 => '9'
  | 10 => 'a' | 11 => 'b' | 12 => 'c' | 13 => 'd' | 14 => 'e' | 15 => 'f'
  | _ => '0'

/-- Fuel-driven decimal rendering (most significant digit first); the fuel
only needs to exceed the number, so `natChars` below is exact. -/
def natCharsGo : Nat → Nat → List Char → List Char
  | 0, _, acc => acc
  | fuel + 1, n, acc =>
    if n < 10 then digitChar n :: acc
    else natCharsGo fuel (n / 10) (digitChar (n % 10) :: acc)

/-- Decimal rendering of a natural number, as Python prints it. -/
def natChars (n : Nat) : List Char := natCharsGo (n + 1) n []

/-- Rendering of a Python integer, as both `repr` and `json` print it. -/
def intChars (n : Int) : List Char :=
  if n < 0 then '-' :: natChars n.natAbs else natChars n.natAbs

/-- Whether a character is a hexadecimal digit. -/
def isHexCh (c : Char) : Bool :=
  c.isDigit || (97 ≤ c.toNat && c.toNat ≤ 102) || (65 ≤ c.toNat && c.toNat ≤ 70)

/-- Numeric value of a hexadecimal digit character. -/
def hexVal (c : Char) : Nat :=
  if c.isDigit then c.toNat - 48
  else if 97 ≤ c.toNat then c.toNat - 87
  else c.toNat - 55

/-- Value of a run of decimal digit characters. -/
def digitsToNat (ds : List Char) : Nat :=
  ds.foldl (fun a c => a * 10 + (c.toNat - 48)) 0

/-- Split off the leading run of decimal digits. -/
def takeDigits : List Char → List Char × List Char
  | [] => ([], [])
  | c :: r =>
    if c.isDigit then
      let p := takeDigits r
      (c :: p.1, p.2)
    else ([], c :: r)

/-- Whether a character list does not start with a digit, so that a decimal
literal placed before it ends exactly where intended. -/
def numOk : List Char → Bool
  | [] => true
  | c :: _ => !c.isDigit

/-- How `json.dump` with `ensure_ascii=False` escapes one character inside a
string: quote, backslash and the named control escapes get two-character
escapes, remaining control characters get a `\u00XX` escape, everything
else (all non-ASCII included) is written literally. -/
def escChar (c : Char) : List Char :=
  if c = '"' then ['\\', '"']
  else if c = '\\' then ['\\', '\\']
  else if c = '\n' then ['\\', 'n']
  else if c = '\t' then ['\\', 't']
  else if c = '\r' then ['\\', 'r']
  else if c = Char.ofNat 8 then ['\\', 'b']
  else if c = Char.ofNat 12 then ['\\', 'f']
  else if c.toNat < 32 then
    ['\\', 'u', '0', '0', hexDigitChar (c.toNat / 16), hexDigitChar (c.toNat % 16)]
  else [c]

/-- JSON escaping of a character sequence. -/
def escapeChars (cs : List Char) : List Char :=
  cs.foldr (fun c acc => escChar c ++ acc) []

/-- A JSON string literal: quote, escaped body, quote. -/
def quoteChars (s : String) : List Char :=
  '"' :: escapeChars s.data ++ ['"']

/-- Indentation emitted by `json.dump(..., indent=2)` at nesting depth `d`. -/
def indentChars (d : Nat) : List Char := List.replicate (2 * d) ' '

mutual

/-- Python values as they can occur in a dataset row: the JSON-serializable
atoms (`None`, `bool`, `int`, `str`), lists, string-keyed dicts, and opaque
objects that `json.dump` rejects with a `TypeError`. -/
inductive PyVal where
  | none
  | bool (b : Bool)
  | int (n : Int)
  | str (s : String)
  | list (xs : PyItems)
  | dict (ms : PyMembers)
  | obj (descr : String)

/-- The elements of a Python list value. -/
inductive PyItems where
  | nil
  | cons (x : PyVal) (xs : PyItems)

/-- The key/value members of a Python dict value, in insertion order. -/
inductive PyMembers where
  | nil
  | cons (k : String) (v : PyVal) (ms : PyMembers)

end

mutual

/-- Whether `json.dump` accepts the value. -/
def serializable : PyVal → Bool
  | .none => true
  | .bool _ => true
  | .int _ => true
  | .str _ => true
  | .obj _ => false
  | .list xs => serializableItems xs
  | .dict ms => serializableMembers ms

/-- Whether every element of a list is serializable. -/
def serializableItems : PyItems → Bool
  | .nil => true
  | .cons x xs => serializable x && serializableItems xs

/-- Whether every member value of a dict is serializable. -/
def serializableMembers : PyMembers → Bool
  | .nil => true
  | .cons _ v ms => serializable v && serializableMembers ms

end

mutual

/-- The exact text `json.dump(v, f, ensure_ascii=False, indent=2)` writes
for a serializable value `v` at nesting depth `d`. -/
def dumps : PyVal → Nat → List Char
  | .none, _ => "null".data
  | .bool true, _ => "true".data
  | .bool false, _ => "false".data
  | .int n, _ => intChars n
  | .str s, _ => quoteChars s
  | .obj _, _ => []
  | .list .nil, _ => ['[', ']']
  | .list (.cons x xs), d =>
    '[' :: '\n' :: indentChars (d + 1) ++ dumps x (d + 1) ++ dumpsItems xs (d + 1)
      ++ '\n' :: indentChars d ++ [']']
  | .dict .nil, _ => [lbrace, rbrace]
  | .dict (.cons k v ms), d =>
    lbrace :: '\n' :: indentChars (d + 1) ++ quoteChars k ++ ':' :: ' ' :: dumps v (d + 1)
      ++ dumpsMembers ms (d + 1) ++ '\n' :: indentChars d ++ [rbrace]

/-- Text for the second and later list elements: separator, newline,
indentation, element. -/
def dumpsItems : PyItems → Nat → List Char
  | .nil, _ => []
  | .cons x xs, d => ',' :: '\n' :: indentChars d ++ dumps x d ++ dumpsItems xs d

/-- Text for the second and later dict members. -/
def dumpsMembers : PyMembers → Nat → List Char
  | .nil, _ => []
  | .cons k v ms, d =>
    ',' :: '\n' :: indentChars d ++ quoteChars k ++ ':' :: ' ' :: dumps v d ++ dumpsMembers ms d

end

mutual

/-- Streaming model of `json.dump`: the chunks are written to the file in
document order, so when a non-serializable value is hit the text emitted so
far has already gone to the file.  Returns that text and a success flag. -/
def emit : PyVal → Nat → List Char × Bool
  | .none, _ => ("null".data, true)
  | .bool true, _ => ("true".data, true)
  | .bool false, _ => ("false".data, true)
  | .int n, _ => (intChars n, true)
  | .str s, _ => (quoteChars s, true)
  | .obj _, _ => ([], false)
  | .list .nil, _ => (['[', ']'], true)
  | .list (.cons x xs), d =>
    let head := '[' :: '\n' :: indentChars (d + 1)
    let p := emit x (d + 1)
    if p.2 then
      let q := emitItems xs (d + 1)
      if q.2 then (head ++ p.1 ++ q.1 ++ '\n' :: indentChars d ++ [']'], true)
      else (head ++ p.1 ++ q.1, false)
    else (head ++ p.1, false)
  | .dict .nil, _ => ([lbrace, rbrace], true)
  | .dict (.cons k v ms), d =>
    let head := lbrace :: '\n' :: indentChars (d + 1) ++ quoteChars k ++ [':', ' ']
    let p := emit v (d + 1)
    if p.2 then
      let q := emitMembers ms (d + 1)
      if q.2 then (head ++ p.1 ++ q.1 ++ '\n' :: indentChars d ++ [rbrace], true)
      else (head ++ p.1 ++ q.1, false)
    else (head ++ p.1, false)

/-- Streaming emission of the remaining list elements. -/
def emitItems : PyItems → Nat → List Char × Bool
  | .nil, _ => ([], true)
  | .cons x xs, d =>
    let sep := ',' :: '\n' :: indentChars d
    let p := emit x d
    if p.2 then
      let q := emitItems xs d
      (sep ++ p.1 ++ q.1, q.2)
    else (sep ++ p.1, false)

/-- Streaming emission of the remaining dict members. -/
def emitMembers : PyMembers → Nat → List Char × Bool
  | .nil, _ => ([], true)
  | .cons k v ms, d =>
    let sep := ',' :: '\n' :: indentChars d ++ quoteChars k ++ [':', ' ']
    let p := emit v d
    if p.2 then
      let q := emitMembers ms d
      (sep ++ p.1 ++ q.1, q.2)
    else (sep ++ p.1, false)

end

/-- Decoding of the two-character backslash escapes `json.loads` accepts. -/
def unescChar (e : Char) : Option Char :=
  if e = '"' then some '"'
  else if e = '\\' then some '\\'
  else if e = '/' then some '/'
  else if e = 'n' then some '\n'
  else if e = 't' then some '\t'
  else if e = 'r' then some '\r'
  else if e = 'b' then some (Char.ofNat 8)
  else if e = 'f' then some (Char.ofNat 12)
  else Option.none

mutual

/-- Body of a JSON string literal as `json.loads` reads it: characters up to
the closing quote, decoding backslash escapes (including `\uXXXX`). -/
def parseStrBody : List Char → Option (List Char × List Char)
  | [] => Option.none
  | c :: r =>
    if c = '"' then some ([], r)
    else if c = '\\' then parseEscSeq r
    else (parseStrBody r).map fun p => (c :: p.1, p.2)

/-- Continuation after a backslash inside a JSON string literal. -/
def parseEscSeq : List Char → Option (List Char × List Char)
  | [] => Option.none
  | e :: r1 =>
    if e = 'u' then parseHexSeq r1
    else
      match unescChar e with
      | some u => (parseStrBody r1).map fun p => (u :: p.1, p.2)
      | Option.none => Option.none

/-- Continuation after a `\u` inside a JSON string literal: four hex digits. -/
def parseHexSeq : List Char → Option (List Char × List Char)
  | a :: b :: c2 :: d2 :: r2 =>
    if isHexCh a && isHexCh b && isHexCh c2 && isHexCh d2 then
      (parseStrBody r2).map fun p =>
        (Char.ofNat (((hexVal a * 16 + hexVal b) * 16 + hexVal c2) * 16 + hexVal d2)
          :: p.1, p.2)
    else Option.none
  | _ => Option.none

end

mutual

/-- Recursive-descent model of `json.loads` on one JSON value.  The fuel
argument only bounds the recursion depth; any fuel exceeding the input
length behaves identically (the parser consumes at least one character
before each recursive call). -/
def parseVal : Nat → List Char → Option (PyVal × List Char)
  | 0, _ => Option.none
  | fuel + 1, s =>
    match skipWs s with
    | [] => Option.none
    | c :: r =>
      if c = 'n' then
        match r with
        | 'u' :: 'l' :: 'l' :: r2 => some (.none, r2)
        | _ => Option.none
      else if c = 't' then
        match r with
        | 'r' :: 'u' :: 'e' :: r2 => some (.bool true, r2)
        | _ => Option.none
      else if c = 'f' then
        match r with
        | 'a' :: 'l' :: 's' :: 'e' :: r2 => some (.bool false, r2)
        | _ => Option.none
      else if c = '"' then
        (parseStrBody r).map fun p => (.str (String.mk p.1), p.2)
      else if c = '[' then
        match skipWs r with
        | [] => Option.none
        | c2 :: r2 =>
          if c2 = ']' then some (.list .nil, r2)
          else
            (parseVal fuel (c2 :: r2)).bind fun p =>
              (parseItems fuel p.2).map fun q => (.list (.cons p.1 q.1), q.2)
      else if c = lbrace then
        match skipWs r with
        | [] => Option.none
        | c2 :: r2 =>
          if c2 = rbrace then some (.dict .nil, r2)
          else if c2 = '"' then
            (parseStrBody r2).bind fun pk =>
              match skipWs pk.2 with
              | ':' :: r3 =>
                (parseVal fuel r3).bind fun pv =>
                  (parseMembers fuel pv.2).map fun pm =>
                    (.dict (.cons (String.mk pk.1) pv.1 pm.1), pm.2)
              | _ => Option.none
          else Option.none
      else if c = '-' then
        match r with
        | c2 :: r2 =>
          if c2.isDigit then
            let p := takeDigits (c2 :: r2)
            some (.int (-(digitsToNat p.1 : Int)), p.2)
          else Option.none
        | [] => Option.none
      else if c.isDigit then
        let p := takeDigits (c :: r)
        some (.int (digitsToNat p.1), p.2)
      else Option.none

/-- After one list element: either the closing bracket or a comma followed
by the next element. -/
def parseItems : Nat → List Char → Option (PyItems × List Char)
  | 0, _ => Option.none
  | fuel + 1, s =>
    match skipWs s with
    | [] => Option.none
    | c :: r =>
      if c = ']' then some (.nil, r)
      else if c = ',' then
        (parseVal fuel r).bind fun p =>
          (parseItems fuel p.2).map fun q => (.cons p.1 q.1, q.2)
      else Option.none

/-- After one dict member: either the closing brace or a comma followed by
the next key/value pair. -/
def parseMembers : Nat → List Char → Option (PyMembers × List Char)
  | 0, _ => Option.none
  | fuel + 1, s =>
    match skipWs s with
    | [] => Option.none
    | c :: r =>
      if c = rbrace then some (.nil, r)
      else if c = ',' then
        match skipWs r with
        | '"' :: r2 =>
          (parseStrBody r2).bind fun pk =>
            match skipWs pk.2 with
            | ':' :: r3 =>
              (parseVal fuel r3).bind fun pv =>
                (parseMembers fuel pv.2).map fun pm =>
                  (.cons (String.mk pk.1) pv.1 pm.1, pm.2)
            | _ => Option.none
        | _ => Option.none
      else Option.none

end

/-- Model of `json.loads`: parse one value, then require only whitespace
to remain. -/
def json_loads (s : String) : Option PyVal :=
  match parseVal (s.data.length + 1) s.data with
  | some p => if skipWs p.2 = [] then some p.1 else Option.none
  | Option.none => Option.none

/-- How Python `repr` escapes one character inside a single-quoted string
literal (the common path; quote preference subtleties aside). -/
def reprEscChar (c : Char) : List Char :=
  if c = '\\' then ['\\', '\\']
  else if c = squote then ['\\', squote]
  else if c = '\n' then ['\\', 'n']
  else if c = '\r' then ['\\', 'r']
  else if c = '\t' then ['\\', 't']
  else if c.toNat < 32 then ['\\', 'x', hexDigitChar (c.toNat / 16), hexDigitChar (c.toNat % 16)]
  else [c]

/-- Python `repr` of a string: single-quoted, escaped. -/
def reprStrChars (s : String) : List Char :=
  squote :: (s.data.foldr (fun c acc => reprEscChar c ++ acc) []) ++ [squote]

mutual

/-- Python's native textual rendering of a value, as `print` produces for a
dataset row (dict `repr`: single-quoted strings, `True`/`False`/`None`,
comma-space separators). -/
def pyRepr : PyVal → List Char
  | .none => "None".data
  | .bool true => "True".data
  | .bool false => "False".data
  | .int n => intChars n
  | .str s => reprStrChars s
  | .obj descr => descr.data
  | .list .nil => ['[', ']']
  | .list (.cons x xs) => '[' :: pyRepr x ++ pyReprItems xs ++ [']']
  | .dict .nil => [lbrace, rbrace]
  | .dict (.cons k v ms) =>
    lbrace :: reprStrChars k ++ ':' :: ' ' :: pyRepr v ++ pyReprMembers ms ++ [rbrace]

/-- Rendering of the remaining list elements, each after a comma-space. -/
def pyReprItems : PyItems → List Char
  | .nil => []
  | .cons x xs => ',' :: ' ' :: pyRepr x ++ pyReprItems xs

/-- Rendering of the remaining dict members, each after a comma-space. -/
def pyReprMembers : PyMembers → List Char
  | .nil => []
  | .cons k v ms => ',' :: ' ' :: reprStrChars k ++ ':' :: ' ' :: pyRepr v ++ pyReprMembers ms

end

mutual

/-- Every character of every string key or string value inside a record
(the characters the non-ASCII-preservation property quantifies over). -/
def strChars : PyVal → List Char
  | .str s => s.data
  | .list xs => strCharsItems xs
  | .dict ms => strCharsMembers ms
  | _ => []

/-- String characters of all list elements. -/
def strCharsItems : PyItems → List Char
  | .nil => []
  | .cons x xs => strChars x ++ strCharsItems xs

/-- String characters of all dict keys and member values. -/
def strCharsMembers : PyMembers → List Char
  | .nil => []
  | .cons k v ms => k.data ++ strChars v ++ strCharsMembers ms

end

/-- The observable actions of one run of the script, in order. -/
inductive Event where
  | loadCall (dataset split : String)
  | printOut (line : String)
  | openWrite (path : String)
  | fileWrite (chunk : String)
  | closeFile
deriving DecidableEq

/-- The errors a run can surface: a collaborator failure, the index-0
access on an empty collection, or `json.dump`'s `TypeError`. -/
inductive PyErr where
  | loadErr
  | indexErr
  | typeErr
deriving DecidableEq

/-- The dataset identifier hardcoded in the script. -/
def dataset_name : String :=
  "DCAgent2/DCAgent_dev_set_71_tasks_DCAgent2_freelancer-projects-100k-traces_20251124_143851"

/-- The output path hardcoded in the script. -/
def out_path : String := "sample_trace_row.json"

/-- One run of `see_sample_dataset.py`, with the dataset collaborator
(`datasets.load_dataset`) abstracted as a function from identifier and
split to either an error or the row collection.  Returns the event trace
and the error the run ends with, if any.  On a successful load the script
prints row 0, then opens the output file (truncating), then streams the
JSON serialization into it; the `with` block closes the file on both the
success and the `TypeError` path. -/
def scriptTrace (load : String → String → Except PyErr (List PyVal)) :
    List Event × Option PyErr :=
  match load dataset_name "train" with
  | .error e => ([.loadCall dataset_name "train"], some e)
  | .ok rows =>
    match rows[0]? with
    | Option.none => ([.loadCall dataset_name "train"], some .indexErr)
    | some row =>
      let p := emit row 0
      ([.loadCall dataset_name "train", .printOut (String.mk (pyRepr row)),
        .openWrite out_path, .fileWrite (String.mk p.1), .closeFile],
       if p.2 then Option.none else some .typeErr)

/-- Effect of one event on the contents of `sample_trace_row.json`
(`Option.none` means the file does not exist). -/
def applyEvent (file : Option String) (e : Event) : Option String :=
  match e with
  | .openWrite _ => some ""
  | .fileWrite s => some (file.getD "" ++ s)
  | _ => file

/-- Contents of the output file after a trace, from initial contents. -/
def fileAfter (init : Option String) (tr : List Event) : Option String :=
  tr.foldl applyEvent init

/-- Everything written to standard output during a trace (`print` appends
a newline). -/
def stdoutAfter (tr : List Event) : String :=
  tr.foldl (fun acc e => match e with | .printOut s => acc ++ s ++ "\n" | _ => acc) ""

/-- Whether the output file handle is still open after a trace. -/
def handleAfter (tr : List Event) : Bool :=
  tr.foldl (fun h e =>
    match e with
    | .openWrite _ => true
    | .closeFile => false
    | _ => h) false

/-- The concrete record of the spec's concrete scenario. -/
def sampleRow : PyVal :=
  .dict (.cons "id" (.int 1) (.cons "text" (.str "hello") .nil))

/-- Collaborator stub returning the one-element collection of the spec's
concrete scenario. -/
def stubOk : String → String → Except PyErr (List PyVal) :=
  fun _ _ => .ok [sampleRow]

/-- Collaborator stub that is unreachable. -/
def stubErr : String → String → Except PyErr (List PyVal) :=
  fun _ _ => .error .loadErr

/-- Collaborator stub returning an empty collection. -/
def stubEmpty : String → String → Except PyErr (List PyVal) :=
  fun _ _ => .ok []

/-- A record containing a non-JSON-serializable value. -/
def badRow : PyVal := .dict (.cons "a" (.obj "<Thing>") .nil)

/-- Collaborator stub whose row cannot be serialized. -/
def stubBad : String → String → Except PyErr (List PyVal) :=
  fun _ _ => .ok [badRow]

/-- A record with a non-ASCII string value. -/
def accentRow : PyVal := .dict (.cons "name" (.str "café") .nil)

/-- Collaborator stub whose row contains non-ASCII text. -/
def stubAccent : String → String → Except PyErr (List PyVal) :=
  fun _ _ => .ok [accentRow]

/-! ### Basic facts about characters, whitespace and decimal rendering -/

theorem mk_data (s : String) : String.mk s.data = s := by
  cases s
  rfl

theorem ne_of_toNat_ne {c d : Char} (h : c.toNat ≠ d.toNat) : c ≠ d := by
  intro e
  exact h (e ▸ rfl)

theorem isDigit_toNat {c : Char} (h : c.isDigit = true) : 48 ≤ c.toNat ∧ c.toNat ≤ 57 := by
  simp only [Char.isDigit, ge_iff_le, Bool.and_eq_true, decide_eq_true_eq] at h
  obtain ⟨h1, h2⟩ := h
  exact ⟨UInt32.le_toNat_of_le (by decide) h1, UInt32.toNat_le_of_le (by decide) h2⟩

theorem digit_ne_char {c : Char} (h : c.isDigit = true) {d : Char}
    (hd : d.toNat < 48 ∨ 57 < d.toNat) : c ≠ d := by
  obtain ⟨a, b⟩ := isDigit_toNat h
  exact ne_of_toNat_ne (by omega)

theorem digit_not_ws {c : Char} (h : c.isDigit = true) : isWsChar c = false := by
  simp only [isWsChar, Bool.or_eq_false_iff, decide_eq_false_iff_not]
  refine ⟨⟨⟨?_, ?_⟩, ?_⟩, ?_⟩ <;> exact digit_ne_char h (by decide)

theorem skipWs_cons_neg {c : Char} {t : List Char} (h : isWsChar c = false) :
    skipWs (c :: t) = c :: t := by
  simp [skipWs, h]

theorem skipWs_ws_append (a t : List Char) (h : ∀ c ∈ a, isWsChar c = true) :
    skipWs (a ++ t) = skipWs t := by
  induction a with
  | nil => rfl
  | cons c a ih =>
    simp only [List.cons_append, skipWs, h c (by simp), if_true]
    exact ih fun d hd => h d (by simp [hd])

theorem indentChars_ws (d : Nat) : ∀ c ∈ indentChars d, isWsChar c = true := by
  intro c hc
  rw [List.eq_of_mem_replicate hc]
  decide

theorem digitChar_spec {m : Nat} (h : m < 10) :
    (digitChar m).isDigit = true ∧ (digitChar m).toNat = 48 + m := by
  have key : ∀ i : Fin 10, (digitChar i.val).isDigit = true ∧ (digitChar i.val).toNat = 48 + i.val := by
    decide
  exact key ⟨m, h⟩

theorem hexDigitChar_spec {m : Nat} (h : m < 16) :
    isHexCh (hexDigitChar m) = true ∧ hexVal (hexDigitChar m) = m := by
  have key : ∀ i : Fin 16, isHexCh (hexDigitChar i.val) = true ∧ hexVal (hexDigitChar i.val) = i.val := by
    decide
  exact key ⟨m, h⟩

theorem natCharsGo_acc (fuel : Nat) : ∀ n acc, n < fuel →
    natCharsGo fuel n acc = natCharsGo fuel n [] ++ acc := by
  induction fuel with
  | zero => omega
  | succ f ih =>
    intro n acc hn
    by_cases h10 : n < 10
    · simp [natCharsGo, h10]
    · have hdiv : n / 10 < f := by
        have h0 := Nat.div_lt_self (by omega : 0 < n) (by omega : 1 < 10)
        omega
      simp only [natCharsGo, if_neg h10]
      rw [ih _ _ hdiv, ih (n / 10) [digitChar (n % 10)] hdiv]
      simp

theorem natCharsGo_fuel (fuel : Nat) : ∀ fuel' n, n < fuel → n < fuel' →
    natCharsGo fuel n [] = natCharsGo fuel' n [] := by
  induction fuel with
  | zero => omega
  | succ f ih =>
    intro fuel' n hn hn'
    cases fuel' with
    | zero => omega
    | succ f' =>
      by_cases h10 : n < 10
      · simp [natCharsGo, h10]
      · have hdiv : n / 10 < n := Nat.div_lt_self (by omega) (by omega)
        simp only [natCharsGo, if_neg h10]
        rw [natCharsGo_acc f _ _ (by omega), natCharsGo_acc f' _ _ (by omega),
          ih f' (n / 10) (by omega) (by omega)]

theorem natChars_small {n : Nat} (h : n < 10) : natChars n = [digitChar n] := by
  simp [natChars, natCharsGo, h]

theorem natChars_step {n : Nat} (h : 10 ≤ n) :
    natChars n = natChars (n / 10) ++ [digitChar (n % 10)] := by
  have hdiv : n / 10 < n := Nat.div_lt_self (by omega) (by omega)
  unfold natChars
  simp only [natCharsGo, if_neg (by omega : ¬ n < 10)]
  rw [natCharsGo_acc n _ _ (by omega)]
  congr 1
  exact natCharsGo_fuel n (n / 10 + 1) (n / 10) (by omega) (by omega)

theorem natChars_digits (n : Nat) : ∀ c ∈ natChars n, c.isDigit = true := by
  induction n using Nat.strong_induction_on with
  | _ n ih =>
    by_cases h10 : n < 10
    · rw [natChars_small h10]
      intro c hc
      rw [List.mem_singleton.mp hc]
      exact (digitChar_spec h10).1
    · rw [natChars_step (by omega)]
      intro c hc
      rcases List.mem_append.mp hc with h | h
      · exact ih (n / 10) (Nat.div_lt_self (by omega) (by omega)) c h
      · rw [List.mem_singleton.mp h]
        exact (digitChar_spec (Nat.mod_lt n (by omega))).1

theorem natChars_ne_nil (n : Nat) : natChars n ≠ [] := by
  by_cases h10 : n < 10
  · rw [natChars_small h10]
    simp
  · rw [natChars_step (by omega)]
    simp

theorem digitsToNat_natChars (n : Nat) : digitsToNat (natChars n) = n := by
  induction n using Nat.strong_induction_on with
  | _ n ih =>
    by_cases h10 : n < 10
    · rw [natChars_small h10]
      simp [digitsToNat, (digitChar_spec h10).2]
    · rw [natChars_step (by omega)]
      have hdiv : n / 10 < n := Nat.div_lt_self (by omega) (by omega)
      simp only [digitsToNat, List.foldl_append, List.foldl_cons, List.foldl_nil]
      have e1 : List.foldl (fun a c => a * 10 + (c.toNat - 48)) 0 (natChars (n / 10)) = n / 10 :=
        ih (n / 10) hdiv
      rw [e1, (digitChar_spec (Nat.mod_lt n (by omega) : n % 10 < 10)).2]
      omega

theorem takeDigits_spec (ds : List Char) (r : List Char)
    (h1 : ∀ c ∈ ds, c.isDigit = true) (h2 : numOk r = true) :
    takeDigits (ds ++ r) = (ds, r) := by
  induction ds with
  | nil =>
    cases r with
    | nil => rfl
    | cons c r' =>
      simp only [numOk, Bool.not_eq_true'] at h2
      simp [takeDigits, h2]
  | cons c ds ih =>
    simp [takeDigits, h1 c (by simp), ih fun d hd => h1 d (by simp [hd])]

/-! ### The streaming writer agrees with the one-shot serializer -/

mutual

theorem emit_ok (j : PyVal) (d : Nat) : (emit j d).2 = serializable j := by
  cases j with
  | none => rfl
  | bool b => cases b <;> rfl
  | int n => rfl
  | str s => rfl
  | obj o => rfl
  | list xs =>
    cases xs with
    | nil => rfl
    | cons x xs =>
      have hx := emit_ok x (d + 1)
      have hxs := emitItems_ok xs (d + 1)
      cases hp : (emit x (d + 1)).2 <;> cases hq : (emitItems xs (d + 1)).2 <;>
        simp [emit, serializable, serializableItems, hp, hq, ← hx, ← hxs]
  | dict ms =>
    cases ms with
    | nil => rfl
    | cons k v ms =>
      have hv := emit_ok v (d + 1)
      have hms := emitMembers_ok ms (d + 1)
      cases hp : (emit v (d + 1)).2 <;> cases hq : (emitMembers ms (d + 1)).2 <;>
        simp [emit, serializable, serializableMembers, hp, hq, ← hv, ← hms]

theorem emitItems_ok (xs : PyItems) (d : Nat) : (emitItems xs d).2 = serializableItems xs := by
  cases xs with
  | nil => rfl
  | cons x xs =>
    have hx := emit_ok x d
    have hxs := emitItems_ok xs d
    cases hp : (emit x d).2 <;>
      simp [emitItems, serializableItems, hp, ← hx, ← hxs]

theorem emitMembers_ok (ms : PyMembers) (d : Nat) :
    (emitMembers ms d).2 = serializableMembers ms := by
  cases ms with
  | nil => rfl
  | cons k v ms =>
    have hv := emit_ok v d
    have hms := emitMembers_ok ms d
    cases hp : (emit v d).2 <;>
      simp [emitMembers, serializableMembers, hp, ← hv, ← hms]

end

mutual

theorem emit_eq_dumps (j : PyVal) (d : Nat) (h : serializable j = true) :
    emit j d = (dumps j d, true) := by
  cases j with
  | none => rfl
  | bool b => cases b <;> rfl
  | int n => rfl
  | str s => rfl
  | obj o => exact absurd h (by simp [serializable])
  | list xs =>
    cases xs with
    | nil => rfl
    | cons x xs =>
      obtain ⟨hx, hxs⟩ : serializable x = true ∧ serializableItems xs = true := by
        simpa [serializable, serializableItems] using h
      have e1 := emit_eq_dumps x (d + 1) hx
      have e2 := emitItems_eq_dumps xs (d + 1) hxs
      simp [emit, dumps, e1, e2]
  | dict ms =>
    cases ms with
    | nil => rfl
    | cons k v ms =>
      obtain ⟨hv, hms⟩ : serializable v = true ∧ serializableMembers ms = true := by
        simpa [serializable, serializableMembers] using h
      have e1 := emit_eq_dumps v (d + 1) hv
      have e2 := emitMembers_eq_dumps ms (d + 1) hms
      simp [emit, dumps, e1, e2]

theorem emitItems_eq_dumps (xs : PyItems) (d : Nat) (h : serializableItems xs = true) :
    emitItems xs d = (dumpsItems xs d, true) := by
  cases xs with
  | nil => rfl
  | cons x xs =>
    obtain ⟨hx, hxs⟩ : serializable x = true ∧ serializableItems xs = true := by
      simpa [serializableItems] using h
    have e1 := emit_eq_dumps x d hx
    have e2 := emitItems_eq_dumps xs d hxs
    simp [emitItems, dumpsItems, e1, e2]

theorem emitMembers_eq_dumps (ms : PyMembers) (d : Nat) (h : serializableMembers ms = true) :
    emitMembers ms d = (dumpsMembers ms d, true) := by
  cases ms with
  | nil => rfl
  | cons k v ms =>
    obtain ⟨hv, hms⟩ : serializable v = true ∧ serializableMembers ms = true := by
      simpa [serializableMembers] using h
    have e1 := emit_eq_dumps v d hv
    have e2 := emitMembers_eq_dumps ms d hms
    simp [emitMembers, dumpsMembers, e1, e2]

end

/-! ### Round trip through string escaping and number rendering -/

theorem escapeChars_nil : escapeChars [] = [] := rfl

theorem escapeChars_cons (c : Char) (cs : List Char) :
    escapeChars (c :: cs) = escChar c ++ escapeChars cs := rfl

theorem numOk_cons {c : Char} (l : List Char) (h : c.isDigit = false) :
    numOk (c :: l) = true := by
  simp [numOk, h]

theorem parseStrBody_escape (cs : List Char) (rest : List Char) :
    parseStrBody (escapeChars cs ++ '"' :: rest) = some (cs, rest) := by
  induction cs with
  | nil => simp [escapeChars_nil, parseStrBody]
  | cons c cs ih =>
    rw [escapeChars_cons, List.append_assoc]
    unfold escChar
    split_ifs with h1 h2 h3 h4 h5 h6 h7 h8
    · subst h1; simp [parseStrBody, parseEscSeq, unescChar, ih]
    · subst h2; simp [parseStrBody, parseEscSeq, unescChar, ih]
    · subst h3; simp [parseStrBody, parseEscSeq, unescChar, ih]
    · subst h4; simp [parseStrBody, parseEscSeq, unescChar, ih]
    · subst h5; simp [parseStrBody, parseEscSeq, unescChar, ih]
    · subst h6; simp [parseStrBody, parseEscSeq, unescChar, ih]
    · subst h7; simp [parseStrBody, parseEscSeq, unescChar, ih]
    · have hdiv : c.toNat / 16 < 16 := by omega
      have hmod : c.toNat % 16 < 16 := Nat.mod_lt _ (by omega)
      simp [parseStrBody, parseEscSeq, parseHexSeq,
        (hexDigitChar_spec hdiv).1, (hexDigitChar_spec hmod).1,
        (hexDigitChar_spec hdiv).2, (hexDigitChar_spec hmod).2, ih]
      refine ⟨by decide, ?_⟩
      have hv0 : hexVal '0' = 0 := by decide
      rw [hv0]
      have he : ((0 * 16 + 0) * 16 + c.toNat / 16) * 16 + c.toNat % 16 = c.toNat := by omega
      rw [he, Char.ofNat_toNat]
    · simp [parseStrBody, h1, h2, ih]

theorem parseVal_ws (fuel : Nat) (a t : List Char) (h : ∀ c ∈ a, isWsChar c = true) :
    parseVal fuel (a ++ t) = parseVal fuel t := by
  cases fuel with
  | zero => rfl
  | succ f =>
    simp only [parseVal]
    rw [skipWs_ws_append a t h]

theorem parse_int (n : Int) (fuel : Nat) (rest : List Char) (hfuel : 0 < fuel)
    (hrest : numOk rest = true) :
    parseVal fuel (intChars n ++ rest) = some (.int n, rest) := by
  cases fuel with
  | zero => omega
  | succ f =>
    have hdigits := natChars_digits n.natAbs
    have htd : takeDigits (natChars n.natAbs ++ rest) = (natChars n.natAbs, rest) :=
      takeDigits_spec _ _ hdigits hrest
    cases hnc : natChars n.natAbs with
    | nil => exact absurd hnc (natChars_ne_nil _)
    | cons d0 t0 =>
      have hd0 : d0.isDigit = true := hdigits d0 (by rw [hnc]; simp)
      by_cases hneg : n < 0
      · simp only [intChars, if_pos hneg, List.cons_append, parseVal,
          skipWs_cons_neg (by decide : isWsChar '-' = false)]
        simp only [if_neg (by decide : ¬ ('-' : Char) = 'n'), if_neg (by decide : ¬ ('-' : Char) = 't'),
          if_neg (by decide : ¬ ('-' : Char) = 'f'), if_neg (by decide : ¬ ('-' : Char) = '"'),
          if_neg (by decide : ¬ ('-' : Char) = '['), if_neg (by decide : ¬ ('-' : Char) = lbrace),
          if_pos (rfl : ('-' : Char) = '-')]
        rw [hnc]
        simp only [List.cons_append, if_pos hd0]
        rw [← List.cons_append, ← hnc, htd, digitsToNat_natChars]
        have hcast : -(n.natAbs : Int) = n := by omega
        rw [hcast]
        simp
      · simp only [intChars, if_neg hneg]
        rw [hnc, List.cons_append]
        simp only [parseVal, skipWs_cons_neg (digit_not_ws hd0)]
        simp only [if_neg (digit_ne_char hd0 (by decide) : ¬ d0 = 'n'),
          if_neg (digit_ne_char hd0 (by decide) : ¬ d0 = 't'),
          if_neg (digit_ne_char hd0 (by decide) : ¬ d0 = 'f'),
          if_neg (digit_ne_char hd0 (by decide) : ¬ d0 = '"'),
          if_neg (digit_ne_char hd0 (by decide) : ¬ d0 = '['),
          if_neg (digit_ne_char hd0 (by decide) : ¬ d0 = lbrace),
          if_neg (digit_ne_char hd0 (by decide) : ¬ d0 = '-'),
          if_pos hd0]
        rw [← List.cons_append, ← hnc, htd, digitsToNat_natChars]
        have hcast : (n.natAbs : Int) = n := by omega
        rw [hcast]

/-! ### Round trip: parsing the serializer output returns the value -/

theorem ws_newline_indent (k : Nat) : ∀ c ∈ '\n' :: indentChars k, isWsChar c = true := by
  intro c hc
  rcases List.mem_cons.mp hc with h | h
  · subst h; decide
  · exact indentChars_ws k c h

theorem numOk_items_tail (xs : PyItems) (d : Nat) (l : List Char) :
    numOk (dumpsItems xs d ++ '\n' :: l) = true := by
  cases xs with
  | nil => simp [dumpsItems, numOk]
  | cons x xs => simp [dumpsItems, numOk]

theorem numOk_members_tail (ms : PyMembers) (d : Nat) (l : List Char) :
    numOk (dumpsMembers ms d ++ '\n' :: l) = true := by
  cases ms with
  | nil => simp [dumpsMembers, numOk]
  | cons k v ms => simp [dumpsMembers, numOk]

theorem dumps_head (j : PyVal) (d : Nat) (h : serializable j = true) :
    ∃ c t, dumps j d = c :: t ∧ isWsChar c = false ∧ ¬ (c = ']') := by
  cases j with
  | none => exact ⟨'n', ['u', 'l', 'l'], rfl, by decide, by decide⟩
  | bool b =>
    cases b with
    | true => exact ⟨'t', ['r', 'u', 'e'], rfl, by decide, by decide⟩
    | false => exact ⟨'f', ['a', 'l', 's', 'e'], rfl, by decide, by decide⟩
  | int n =>
    by_cases hneg : n < 0
    · exact ⟨'-', natChars n.natAbs, by simp [dumps, intChars, hneg], by decide, by decide⟩
    · cases hnc : natChars n.natAbs with
      | nil => exact absurd hnc (natChars_ne_nil _)
      | cons d0 t0 =>
        have hd0 : d0.isDigit = true := natChars_digits n.natAbs d0 (by rw [hnc]; simp)
        exact ⟨d0, t0, by simp [dumps, intChars, hneg, hnc], digit_not_ws hd0,
          digit_ne_char hd0 (by decide)⟩
  | str s => exact ⟨'"', escapeChars s.data ++ ['"'], rfl, by decide, by decide⟩
  | obj o => exact absurd h (by simp [serializable])
  | list xs =>
    cases xs with
    | nil => exact ⟨'[', [']'], rfl, by decide, by decide⟩
    | cons x xs => exact ⟨'[', _, rfl, by decide, by decide⟩
  | dict ms =>
    cases ms with
    | nil => exact ⟨lbrace, [rbrace], rfl, by decide, by decide⟩
    | cons k v ms => exact ⟨lbrace, _, rfl, by decide, by decide⟩

mutual

theorem parse_dumps (j : PyVal) (d fuel : Nat) (rest : List Char)
    (hser : serializable j = true)
    (hfuel : (dumps j d).length + rest.length < fuel)
    (hrest : numOk rest = true) :
    parseVal fuel (dumps j d ++ rest) = some (j, rest) := by
  cases j with
  | none =>
    cases fuel with
    | zero => omega
    | succ f =>
      have e : dumps PyVal.none d ++ rest = 'n' :: 'u' :: 'l' :: 'l' :: rest := rfl
      rw [e]
      simp only [parseVal, skipWs_cons_neg (by decide : isWsChar 'n' = false)]
      simp
  | bool b =>
    cases fuel with
    | zero => omega
    | succ f =>
      cases b with
      | true =>
        have e : dumps (PyVal.bool true) d ++ rest = 't' :: 'r' :: 'u' :: 'e' :: rest := rfl
        rw [e]
        simp only [parseVal, skipWs_cons_neg (by decide : isWsChar 't' = false)]
        simp
      | false =>
        have e : dumps (PyVal.bool false) d ++ rest = 'f' :: 'a' :: 'l' :: 's' :: 'e' :: rest := rfl
        rw [e]
        simp only [parseVal, skipWs_cons_neg (by decide : isWsChar 'f' = false)]
        simp
  | int n =>
    have e : dumps (PyVal.int n) d = intChars n := rfl
    rw [e]
    exact parse_int n fuel rest (by omega) hrest
  | str s =>
    cases fuel with
    | zero => omega
    | succ f =>
      have e : dumps (PyVal.str s) d ++ rest = '"' :: (escapeChars s.data ++ '"' :: rest) := by
        simp [dumps, quoteChars]
      rw [e]
      simp only [parseVal, skipWs_cons_neg (by decide : isWsChar '"' = false)]
      simp [parseStrBody_escape, mk_data]
  | obj o => exact absurd hser (by simp [serializable])
  | list xs =>
    cases xs with
    | nil =>
      cases fuel with
      | zero => omega
      | succ f =>
        have e : dumps (PyVal.list PyItems.nil) d ++ rest = '[' :: ']' :: rest := rfl
        rw [e]
        simp [parseVal, skipWs_cons_neg (by decide : isWsChar '[' = false),
          skipWs_cons_neg (by decide : isWsChar ']' = false)]
    | cons x xs =>
      cases fuel with
      | zero => omega
      | succ f =>
        obtain ⟨hx, hxs⟩ : serializable x = true ∧ serializableItems xs = true := by
          simpa [serializable, serializableItems] using hser
        simp only [dumps, List.length_append, List.length_cons] at hfuel
        have hshape : dumps (PyVal.list (PyItems.cons x xs)) d ++ rest =
            '[' :: '\n' :: (indentChars (d + 1) ++ (dumps x (d + 1) ++ (dumpsItems xs (d + 1) ++ ('\n' :: (indentChars d ++ (']' :: rest)))))) := by
          simp [dumps]
        obtain ⟨c0, t0, hdx, hnws0, hne0⟩ := dumps_head x (d + 1) hx
        have ihx : parseVal f (dumps x (d + 1) ++ (dumpsItems xs (d + 1) ++ ('\n' :: (indentChars d ++ (']' :: rest))))) = some (x, dumpsItems xs (d + 1) ++ ('\n' :: (indentChars d ++ (']' :: rest)))) :=
          parse_dumps x (d + 1) f _ hx
            (by simp only [List.length_append, List.length_cons]; omega)
            (numOk_items_tail xs (d + 1) _)
        have ihxs : parseItems f (dumpsItems xs (d + 1) ++ ('\n' :: (indentChars d ++ (']' :: rest)))) = some (xs, rest) :=
          parse_dumps_items xs d f rest hxs (by omega)
        have hsk : skipWs ('\n' :: (indentChars (d + 1) ++ (dumps x (d + 1) ++ (dumpsItems xs (d + 1) ++ ('\n' :: (indentChars d ++ (']' :: rest))))))) =
            c0 :: (t0 ++ (dumpsItems xs (d + 1) ++ ('\n' :: (indentChars d ++ (']' :: rest))))) := by
          have e1 : ('\n' :: (indentChars (d + 1) ++ (dumps x (d + 1) ++ (dumpsItems xs (d + 1) ++ ('\n' :: (indentChars d ++ (']' :: rest))))))) =
              ('\n' :: indentChars (d + 1)) ++ (dumps x (d + 1) ++ (dumpsItems xs (d + 1) ++ ('\n' :: (indentChars d ++ (']' :: rest))))) := by simp
          rw [e1, skipWs_ws_append _ _ (ws_newline_indent (d + 1)), hdx, List.cons_append,
            skipWs_cons_neg hnws0]
        rw [hshape]
        simp only [parseVal, skipWs_cons_neg (by decide : isWsChar '[' = false)]
        rw [hdx, List.cons_append] at ihx
        simp [hsk, hne0, ihx, ihxs]
  | dict ms =>
    cases ms with
    | nil =>
      cases fuel with
      | zero => omega
      | succ f =>
        have e : dumps (PyVal.dict PyMembers.nil) d ++ rest = lbrace :: rbrace :: rest := rfl
        rw [e]
        simp [parseVal, skipWs_cons_neg (by decide : isWsChar lbrace = false),
          skipWs_cons_neg (by decide : isWsChar rbrace = false),
          (by decide : ¬ lbrace = 'n'), (by decide : ¬ lbrace = 't'),
          (by decide : ¬ lbrace = 'f'), (by decide : ¬ lbrace = '"'),
          (by decide : ¬ lbrace = '[')]
    | cons k v ms =>
      cases fuel with
      | zero => omega
      | succ f =>
        obtain ⟨hv, hms⟩ : serializable v = true ∧ serializableMembers ms = true := by
          simpa [serializable, serializableMembers] using hser
        simp only [dumps, quoteChars, List.length_append, List.length_cons] at hfuel
        have hshape : dumps (PyVal.dict (PyMembers.cons k v ms)) d ++ rest =
            lbrace :: '\n' :: (indentChars (d + 1) ++ ('"' :: (escapeChars k.data ++
              '"' :: ':' :: ' ' :: (dumps v (d + 1) ++ (dumpsMembers ms (d + 1) ++ ('\n' :: (indentChars d ++ (rbrace :: rest)))))))) := by
          simp [dumps, quoteChars]
        have ihv : parseVal f (dumps v (d + 1) ++ (dumpsMembers ms (d + 1) ++ ('\n' :: (indentChars d ++ (rbrace :: rest))))) = some (v, dumpsMembers ms (d + 1) ++ ('\n' :: (indentChars d ++ (rbrace :: rest)))) :=
          parse_dumps v (d + 1) f _ hv
            (by simp only [List.length_append, List.length_cons]; omega)
            (numOk_members_tail ms (d + 1) _)
        have ihms : parseMembers f (dumpsMembers ms (d + 1) ++ ('\n' :: (indentChars d ++ (rbrace :: rest)))) = some (ms, rest) :=
          parse_dumps_members ms d f rest hms (by omega)
        have hsk : skipWs ('\n' :: (indentChars (d + 1) ++ ('"' :: (escapeChars k.data ++
            '"' :: ':' :: ' ' :: (dumps v (d + 1) ++ (dumpsMembers ms (d + 1) ++ ('\n' :: (indentChars d ++ (rbrace :: rest))))))))) =
            '"' :: (escapeChars k.data ++ '"' :: ':' :: ' ' :: (dumps v (d + 1) ++ (dumpsMembers ms (d + 1) ++ ('\n' :: (indentChars d ++ (rbrace :: rest)))))) := by
          have e1 : ('\n' :: (indentChars (d + 1) ++ ('"' :: (escapeChars k.data ++
              '"' :: ':' :: ' ' :: (dumps v (d + 1) ++ (dumpsMembers ms (d + 1) ++ ('\n' :: (indentChars d ++ (rbrace :: rest))))))))) =
              ('\n' :: indentChars (d + 1)) ++ ('"' :: (escapeChars k.data ++
              '"' :: ':' :: ' ' :: (dumps v (d + 1) ++ (dumpsMembers ms (d + 1) ++ ('\n' :: (indentChars d ++ (rbrace :: rest))))))) := by simp
          rw [e1, skipWs_ws_append _ _ (ws_newline_indent (d + 1)),
            skipWs_cons_neg (by decide : isWsChar '"' = false)]
        have hkey : parseStrBody (escapeChars k.data ++
            '"' :: ':' :: ' ' :: (dumps v (d + 1) ++ (dumpsMembers ms (d + 1) ++ ('\n' :: (indentChars d ++ (rbrace :: rest)))))) =
            some (k.data, ':' :: ' ' :: (dumps v (d + 1) ++ (dumpsMembers ms (d + 1) ++ ('\n' :: (indentChars d ++ (rbrace :: rest)))))) :=
          parseStrBody_escape k.data _
        have hval : parseVal f (' ' :: (dumps v (d + 1) ++ (dumpsMembers ms (d + 1) ++ ('\n' :: (indentChars d ++ (rbrace :: rest)))))) = some (v, dumpsMembers ms (d + 1) ++ ('\n' :: (indentChars d ++ (rbrace :: rest)))) := by
          have e2 : (' ' :: (dumps v (d + 1) ++ (dumpsMembers ms (d + 1) ++ ('\n' :: (indentChars d ++ (rbrace :: rest)))))) =
              [' '] ++ (dumps v (d + 1) ++ (dumpsMembers ms (d + 1) ++ ('\n' :: (indentChars d ++ (rbrace :: rest))))) := by simp
          rw [e2, parseVal_ws f _ _ (by intro c hc; simp at hc; subst hc; decide)]
          exact ihv
        rw [hshape]
        simp only [parseVal, skipWs_cons_neg (by decide : isWsChar lbrace = false),
          (by decide : ¬ lbrace = 'n'), (by decide : ¬ lbrace = 't'),
          (by decide : ¬ lbrace = 'f'), (by decide : ¬ lbrace = '"'),
          (by decide : ¬ lbrace = '['), ite_false, ite_true, if_pos (rfl : lbrace = lbrace)]
        simp [hsk, hkey, hval, ihms, mk_data,
          skipWs_cons_neg (by decide : isWsChar ':' = false),
          (by decide : ¬ ('"' : Char) = rbrace)]

theorem parse_dumps_items (xs : PyItems) (d fuel : Nat) (rest : List Char)
    (hser : serializableItems xs = true)
    (hfuel : (dumpsItems xs (d + 1)).length + (indentChars d).length + rest.length + 2 < fuel) :
    parseItems fuel (dumpsItems xs (d + 1) ++ ('\n' :: (indentChars d ++ (']' :: rest)))) = some (xs, rest) := by
  cases xs with
  | nil =>
    cases fuel with
    | zero => omega
    | succ f =>
      have e : dumpsItems PyItems.nil (d + 1) ++ ('\n' :: (indentChars d ++ (']' :: rest))) = ('\n' :: indentChars d) ++ (']' :: rest) := by simp [dumpsItems]
      rw [e]
      simp only [parseItems, skipWs_ws_append _ _ (ws_newline_indent d),
        skipWs_cons_neg (by decide : isWsChar ']' = false)]
      simp
  | cons x xs =>
    cases fuel with
    | zero => omega
    | succ f =>
      obtain ⟨hx, hxs⟩ : serializable x = true ∧ serializableItems xs = true := by
        simpa [serializableItems] using hser
      simp only [dumpsItems, List.length_append, List.length_cons] at hfuel
      have hshape : dumpsItems (PyItems.cons x xs) (d + 1) ++
          ('\n' :: (indentChars d ++ (']' :: rest))) =
          ',' :: '\n' :: (indentChars (d + 1) ++ (dumps x (d + 1) ++ (dumpsItems xs (d + 1) ++ ('\n' :: (indentChars d ++ (']' :: rest)))))) := by
        simp [dumpsItems]
      have ihx : parseVal f (dumps x (d + 1) ++ (dumpsItems xs (d + 1) ++ ('\n' :: (indentChars d ++ (']' :: rest))))) = some (x, dumpsItems xs (d + 1) ++ ('\n' :: (indentChars d ++ (']' :: rest)))) :=
        parse_dumps x (d + 1) f _ hx
          (by simp only [List.length_append, List.length_cons]; omega)
          (numOk_items_tail xs (d + 1) _)
      have ihxs : parseItems f (dumpsItems xs (d + 1) ++ ('\n' :: (indentChars d ++ (']' :: rest)))) = some (xs, rest) :=
        parse_dumps_items xs d f rest hxs (by omega)
      have hval : parseVal f ('\n' :: (indentChars (d + 1) ++ (dumps x (d + 1) ++ (dumpsItems xs (d + 1) ++ ('\n' :: (indentChars d ++ (']' :: rest))))))) =
          some (x, dumpsItems xs (d + 1) ++ ('\n' :: (indentChars d ++ (']' :: rest)))) := by
        have e2 : ('\n' :: (indentChars (d + 1) ++ (dumps x (d + 1) ++ (dumpsItems xs (d + 1) ++ ('\n' :: (indentChars d ++ (']' :: rest))))))) =
            ('\n' :: indentChars (d + 1)) ++ (dumps x (d + 1) ++ (dumpsItems xs (d + 1) ++ ('\n' :: (indentChars d ++ (']' :: rest))))) := by simp
        rw [e2, parseVal_ws f _ _ (ws_newline_indent (d + 1))]
        exact ihx
      rw [hshape]
      simp only [parseItems, skipWs_cons_neg (by decide : isWsChar ',' = false)]
      simp [hval, ihxs]

theorem parse_dumps_members (ms : PyMembers) (d fuel : Nat) (rest : List Char)
    (hser : serializableMembers ms = true)
    (hfuel : (dumpsMembers ms (d + 1)).length + (indentChars d).length + rest.length + 2 < fuel) :
    parseMembers fuel (dumpsMembers ms (d + 1) ++ ('\n' :: (indentChars d ++ (rbrace :: rest)))) = some (ms, rest) := by
  cases ms with
  | nil =>
    cases fuel with
    | zero => omega
    | succ f =>
      have e : dumpsMembers PyMembers.nil (d + 1) ++ ('\n' :: (indentChars d ++ (rbrace :: rest))) = ('\n' :: indentChars d) ++ (rbrace :: rest) := by simp [dumpsMembers]
      rw [e]
      simp only [parseMembers, skipWs_ws_append _ _ (ws_newline_indent d),
        skipWs_cons_neg (by decide : isWsChar rbrace = false)]
      simp
  | cons k v ms =>
    cases fuel with
    | zero => omega
    | succ f =>
      obtain ⟨hv, hms⟩ : serializable v = true ∧ serializableMembers ms = true := by
        simpa [serializableMembers] using hser
      simp only [dumpsMembers, quoteChars, List.length_append, List.length_cons] at hfuel
      have hshape : dumpsMembers (PyMembers.cons k v ms) (d + 1) ++
          ('\n' :: (indentChars d ++ (rbrace :: rest))) =
          ',' :: '\n' :: (indentChars (d + 1) ++ ('"' :: (escapeChars k.data ++
            '"' :: ':' :: ' ' :: (dumps v (d + 1) ++ (dumpsMembers ms (d + 1) ++ ('\n' :: (indentChars d ++ (rbrace :: rest)))))))) := by
        simp [dumpsMembers, quoteChars]
      have ihv : parseVal f (dumps v (d + 1) ++ (dumpsMembers ms (d + 1) ++ ('\n' :: (indentChars d ++ (rbrace :: rest))))) = some (v, dumpsMembers ms (d + 1) ++ ('\n' :: (indentChars d ++ (rbrace :: rest)))) :=
        parse_dumps v (d + 1) f _ hv
          (by simp only [List.length_append, List.length_cons]; omega)
          (numOk_members_tail ms (d + 1) _)
      have ihms : parseMembers f (dumpsMembers ms (d + 1) ++ ('\n' :: (indentChars d ++ (rbrace :: rest)))) = some (ms, rest) :=
        parse_dumps_members ms d f rest hms (by omega)
      have hsk : skipWs ('\n' :: (indentChars (d + 1) ++ ('"' :: (escapeChars k.data ++
          '"' :: ':' :: ' ' :: (dumps v (d + 1) ++ (dumpsMembers ms (d + 1) ++ ('\n' :: (indentChars d ++ (rbrace :: rest))))))))) =
          '"' :: (escapeChars k.data ++ '"' :: ':' :: ' ' :: (dumps v (d + 1) ++ (dumpsMembers ms (d + 1) ++ ('\n' :: (indentChars d ++ (rbrace :: rest)))))) := by
        have e1 : ('\n' :: (indentChars (d + 1) ++ ('"' :: (escapeChars k.data ++
            '"' :: ':' :: ' ' :: (dumps v (d + 1) ++ (dumpsMembers ms (d + 1) ++ ('\n' :: (indentChars d ++ (rbrace :: rest))))))))) =
            ('\n' :: indentChars (d + 1)) ++ ('"' :: (escapeChars k.data ++
            '"' :: ':' :: ' ' :: (dumps v (d + 1) ++ (dumpsMembers ms (d + 1) ++ ('\n' :: (indentChars d ++ (rbrace :: rest))))))) := by simp
        rw [e1, skipWs_ws_append _ _ (ws_newline_indent (d + 1)),
          skipWs_cons_neg (by decide : isWsChar '"' = false)]
      have hkey : parseStrBody (escapeChars k.data ++
          '"' :: ':' :: ' ' :: (dumps v (d + 1) ++ (dumpsMembers ms (d + 1) ++ ('\n' :: (indentChars d ++ (rbrace :: rest)))))) =
          some (k.data, ':' :: ' ' :: (dumps v (d + 1) ++ (dumpsMembers ms (d + 1) ++ ('\n' :: (indentChars d ++ (rbrace :: rest)))))) :=
        parseStrBody_escape k.data _
      have hval : parseVal f (' ' :: (dumps v (d + 1) ++ (dumpsMembers ms (d + 1) ++ ('\n' :: (indentChars d ++ (rbrace :: rest)))))) = some (v, dumpsMembers ms (d + 1) ++ ('\n' :: (indentChars d ++ (rbrace :: rest)))) := by
        have e2 : (' ' :: (dumps v (d + 1) ++ (dumpsMembers ms (d + 1) ++ ('\n' :: (indentChars d ++ (rbrace :: rest)))))) =
            [' '] ++ (dumps v (d + 1) ++ (dumpsMembers ms (d + 1) ++ ('\n' :: (indentChars d ++ (rbrace :: rest))))) := by simp
        rw [e2, parseVal_ws f _ _ (by intro c hc; simp at hc; subst hc; decide)]
        exact ihv
      rw [hshape]
      simp only [parseMembers, skipWs_cons_neg (by decide : isWsChar ',' = false),
        (by decide : ¬ (',' : Char) = rbrace), ite_false, ite_true, if_pos (rfl : (',' : Char) = ',')]
      simp [hsk, hkey, hval, ihms, mk_data,
        skipWs_cons_neg (by decide : isWsChar ':' = false)]

end

/-! ### Top-level consequences: loads, script traces, file contents -/

theorem json_loads_dumps (j : PyVal) (h : serializable j = true) :
    json_loads (String.mk (dumps j 0)) = some j := by
  unfold json_loads
  have hd : (String.mk (dumps j 0)).data = dumps j 0 := rfl
  rw [hd]
  have hp := parse_dumps j 0 ((dumps j 0).length + 1) [] h (by simp) (by rfl)
  rw [List.append_nil] at hp
  rw [hp]
  simp [skipWs]

theorem empty_append_str (s : String) : "" ++ s = s := by
  cases s
  rfl

theorem scriptTrace_row (load : String → String → Except PyErr (List PyVal))
    (rows : List PyVal) (row : PyVal)
    (hl : load dataset_name "train" = Except.ok rows)
    (hr : rows[0]? = some row) :
    (scriptTrace load).1 = [Event.loadCall dataset_name "train",
      Event.printOut (String.mk (pyRepr row)), Event.openWrite out_path,
      Event.fileWrite (String.mk (emit row 0).1), Event.closeFile] := by
  rcases hp : (emit row 0).2 <;> simp [scriptTrace, hl, hr, hp]

theorem scriptTrace_ok (load : String → String → Except PyErr (List PyVal))
    (rows : List PyVal) (row : PyVal)
    (hl : load dataset_name "train" = Except.ok rows)
    (hr : rows[0]? = some row)
    (hs : serializable row = true) :
    scriptTrace load = ([Event.loadCall dataset_name "train",
      Event.printOut (String.mk (pyRepr row)), Event.openWrite out_path,
      Event.fileWrite (String.mk (dumps row 0)), Event.closeFile], Option.none) := by
  simp [scriptTrace, hl, hr, emit_eq_dumps row 0 hs]

theorem scriptTrace_typeErr (load : String → String → Except PyErr (List PyVal))
    (rows : List PyVal) (row : PyVal)
    (hl : load dataset_name "train" = Except.ok rows)
    (hr : rows[0]? = some row)
    (hbad : serializable row = false) :
    scriptTrace load = ([Event.loadCall dataset_name "train",
      Event.printOut (String.mk (pyRepr row)), Event.openWrite out_path,
      Event.fileWrite (String.mk (emit row 0).1), Event.closeFile],
      some PyErr.typeErr) := by
  have hp : (emit row 0).2 = false := by rw [emit_ok]; exact hbad
  simp [scriptTrace, hl, hr, hp]

theorem fileAfter_row_events (init : Option String) (p o s : String) :
    fileAfter init [Event.loadCall dataset_name "train", Event.printOut p,
      Event.openWrite o, Event.fileWrite s, Event.closeFile] = some s := by
  simp [fileAfter, applyEvent, empty_append_str]

theorem escChar_plain {c : Char} (h : 127 < c.toNat) : escChar c = [c] := by
  unfold escChar
  rw [if_neg (ne_of_toNat_ne (by rw [show ('"').toNat = 34 from rfl]; omega)),
    if_neg (ne_of_toNat_ne (by rw [show ('\\').toNat = 92 from rfl]; omega)),
    if_neg (ne_of_toNat_ne (by rw [show ('\n').toNat = 10 from rfl]; omega)),
    if_neg (ne_of_toNat_ne (by rw [show ('\t').toNat = 9 from rfl]; omega)),
    if_neg (ne_of_toNat_ne (by rw [show ('\r').toNat = 13 from rfl]; omega)),
    if_neg (ne_of_toNat_ne (by rw [show (Char.ofNat 8).toNat = 8 from rfl]; omega)),
    if_neg (ne_of_toNat_ne (by rw [show (Char.ofNat 12).toNat = 12 from rfl]; omega)),
    if_neg (by omega)]

theorem mem_escapeChars {c : Char} {cs : List Char} (hc : c ∈ cs) (he : escChar c = [c]) :
    c ∈ escapeChars cs := by
  induction cs with
  | nil => cases hc
  | cons a cs ih =>
    rw [escapeChars_cons]
    rcases List.mem_cons.mp hc with h | h
    · subst h
      rw [he]
      simp
    · exact List.mem_append.mpr (Or.inr (ih h))

theorem mem_quoteChars {c : Char} {s : String} (hc : c ∈ s.data) (he : escChar c = [c]) :
    c ∈ quoteChars s := by
  unfold quoteChars
  have hm := mem_escapeChars hc he
  simp only [List.mem_cons, List.mem_append]
  tauto

mutual

theorem mem_dumps {c : Char} (j : PyVal) (d : Nat) (hc : c ∈ strChars j)
    (he : escChar c = [c]) : c ∈ dumps j d := by
  cases j with
  | none => cases hc
  | bool b => cases hc
  | int n => cases hc
  | obj o => cases hc
  | str s => exact mem_quoteChars hc he
  | list xs =>
    cases xs with
    | nil => cases hc
    | cons x xs =>
      have hsplit : c ∈ strChars x ++ strCharsItems xs := hc
      simp only [dumps, List.mem_cons, List.mem_append]
      rcases List.mem_append.mp hsplit with h | h
      · have hm := mem_dumps x (d + 1) h he
        tauto
      · have hm := mem_dumpsItems xs (d + 1) h he
        tauto
  | dict ms =>
    cases ms with
    | nil => cases hc
    | cons k v ms =>
      have hsplit : c ∈ (k.data ++ strChars v) ++ strCharsMembers ms := hc
      simp only [dumps, quoteChars, List.mem_cons, List.mem_append]
      rcases List.mem_append.mp hsplit with h | h
      · rcases List.mem_append.mp h with h2 | h2
        · have hm := mem_escapeChars h2 he
          tauto
        · have hm := mem_dumps v (d + 1) h2 he
          tauto
      · have hm := mem_dumpsMembers ms (d + 1) h he
        tauto

theorem mem_dumpsItems {c : Char} (xs : PyItems) (d : Nat) (hc : c ∈ strCharsItems xs)
    (he : escChar c = [c]) : c ∈ dumpsItems xs d := by
  cases xs with
  | nil => cases hc
  | cons x xs =>
    have hsplit : c ∈ strChars x ++ strCharsItems xs := hc
    simp only [dumpsItems, List.mem_cons, List.mem_append]
    rcases List.mem_append.mp hsplit with h | h
    · have hm := mem_dumps x d h he
      tauto
    · have hm := mem_dumpsItems xs d h he
      tauto

theorem mem_dumpsMembers {c : Char} (ms : PyMembers) (d : Nat) (hc : c ∈ strCharsMembers ms)
    (he : escChar c = [c]) : c ∈ dumpsMembers ms d := by
  cases ms with
  | nil => cases hc
  | cons k v ms =>
    have hsplit : c ∈ (k.data ++ strChars v) ++ strCharsMembers ms := hc
    simp only [dumpsMembers, quoteChars, List.mem_cons, List.mem_append]
    rcases List.mem_append.mp hsplit with h | h
    · rcases List.mem_append.mp h with h2 | h2
      · have hm := mem_escapeChars h2 he
        tauto
      · have hm := mem_dumps v d h2 he
        tauto
    · have hm := mem_dumpsMembers ms d h he
      tauto

end

/-! ### The claims -/

/-- C1: for every successful run, the JSON text written to
`sample_trace_row.json`, parsed back, is deeply equal to the first element
of the collection the collaborator returned for the hardcoded identifier
and split. -/
theorem C1_file_roundtrip (load : String → String → Except PyErr (List PyVal))
    (init : Option String) (rows : List PyVal) (row : PyVal)
    (hl : load dataset_name "train" = Except.ok rows)
    (hr : rows[0]? = some row)
    (hs : serializable row = true) :
    ∃ content : String, fileAfter init (scriptTrace load).1 = some content ∧
      json_loads content = some row := by
  rw [scriptTrace_ok load rows row hl hr hs]
  exact ⟨String.mk (dumps row 0), fileAfter_row_events init _ _ _, json_loads_dumps row hs⟩

/-- Witness for C1: the concrete one-row stub collaborator. -/
theorem C1_file_roundtrip_witness :
    ∃ content : String, fileAfter Option.none (scriptTrace stubOk).1 = some content ∧
      json_loads content = some sampleRow :=
  C1_file_roundtrip stubOk Option.none [sampleRow] sampleRow rfl rfl rfl

/-- C2: with a collaborator stub returning the one-element collection whose
record maps id to 1 and text to hello, the run writes that record as
2-space-indented JSON (open brace, newline, two spaces, id line, comma,
newline, two spaces, text line, newline, close brace) byte for byte, and
stdout receives the textual rendering of the record. -/
theorem C2_concrete_scenario :
    fileAfter Option.none (scriptTrace stubOk).1 =
      some "\x7b\n  \"id\": 1,\n  \"text\": \"hello\"\n\x7d" ∧
    stdoutAfter (scriptTrace stubOk).1 =
      String.mk [lbrace, squote, 'i', 'd', squote, ':', ' ', '1', ',', ' ',
        squote, 't', 'e', 'x', 't', squote, ':', ' ',
        squote, 'h', 'e', 'l', 'l', 'o', squote, rbrace, '\n'] :=
  ⟨by decide, by decide⟩

/-- C3: when the collaborator is unreachable the trace holds only the load
call, so no file is opened or written and any pre-existing output file is
untouched. -/
theorem C3_unreachable_no_write (load : String → String → Except PyErr (List PyVal))
    (init : Option String) (e : PyErr)
    (hl : load dataset_name "train" = Except.error e) :
    (scriptTrace load).1 = [Event.loadCall dataset_name "train"] ∧
    fileAfter init (scriptTrace load).1 = init := by
  constructor <;> simp [scriptTrace, hl, fileAfter, applyEvent]

/-- Witness for C3: a failing stub leaves prior file contents untouched. -/
theorem C3_unreachable_no_write_witness :
    (scriptTrace stubErr).1 = [Event.loadCall dataset_name "train"] ∧
    fileAfter (some "previous contents") (scriptTrace stubErr).1 = some "previous contents" :=
  C3_unreachable_no_write stubErr (some "previous contents") PyErr.loadErr rfl

/-- C4: when the collaborator returns an empty collection, the index-0
access fails, the run ends with that error, and no file is opened or
written. -/
theorem C4_empty_collection_fails (load : String → String → Except PyErr (List PyVal))
    (init : Option String)
    (hl : load dataset_name "train" = Except.ok ([] : List PyVal)) :
    (scriptTrace load).2 = some PyErr.indexErr ∧
    (scriptTrace load).1 = [Event.loadCall dataset_name "train"] ∧
    fileAfter init (scriptTrace load).1 = init := by
  refine ⟨?_, ?_, ?_⟩ <;> simp [scriptTrace, hl, fileAfter, applyEvent]

/-- Witness for C4: the empty-collection stub. -/
theorem C4_empty_collection_fails_witness :
    (scriptTrace stubEmpty).2 = some PyErr.indexErr ∧
    (scriptTrace stubEmpty).1 = [Event.loadCall dataset_name "train"] ∧
    fileAfter (some "old") (scriptTrace stubEmpty).1 = some "old" :=
  C4_empty_collection_fails stubEmpty (some "old") rfl

/-- C5: for every serializable record, the file receives exactly the
2-space-indented serialization produced with no forced ASCII escaping, and
every non-ASCII character occurring in the record's strings appears
literally (unescaped) in the written text. -/
theorem C5_output_format (load : String → String → Except PyErr (List PyVal))
    (init : Option String) (rows : List PyVal) (row : PyVal)
    (hl : load dataset_name "train" = Except.ok rows)
    (hr : rows[0]? = some row)
    (hs : serializable row = true) :
    fileAfter init (scriptTrace load).1 = some (String.mk (dumps row 0)) ∧
    ∀ c ∈ strChars row, 127 < c.toNat → c ∈ dumps row 0 := by
  refine ⟨?_, fun c hc ha => mem_dumps row 0 hc (escChar_plain ha)⟩
  rw [scriptTrace_ok load rows row hl hr hs]
  exact fileAfter_row_events init _ _ _

/-- Witness for C5: a record holding non-ASCII text, whose accented
character is indeed non-ASCII and present among the record's string
characters. -/
theorem C5_output_format_witness :
    (fileAfter Option.none (scriptTrace stubAccent).1 = some (String.mk (dumps accentRow 0)) ∧
      ∀ c ∈ strChars accentRow, 127 < c.toNat → c ∈ dumps accentRow 0) ∧
    ('é' ∈ strChars accentRow ∧ 127 < ('é').toNat) :=
  ⟨C5_output_format stubAccent Option.none [accentRow] accentRow rfl rfl rfl,
    by decide, by decide⟩

/-- C6: a run that reaches the output file overwrites it: the final
contents do not depend on the prior contents, and re-running on the result
of a first run leaves the same contents (idempotence). -/
theorem C6_overwrite_idempotent (load : String → String → Except PyErr (List PyVal))
    (init init' : Option String) (rows : List PyVal) (row : PyVal)
    (hl : load dataset_name "train" = Except.ok rows)
    (hr : rows[0]? = some row) :
    fileAfter init (scriptTrace load).1 = fileAfter init' (scriptTrace load).1 ∧
    fileAfter (fileAfter init (scriptTrace load).1) (scriptTrace load).1 =
      fileAfter init (scriptTrace load).1 := by
  rw [scriptTrace_row load rows row hl hr]
  constructor <;> simp [fileAfter, applyEvent, empty_append_str]

/-- Witness for C6: the concrete stub, starting from a stale file versus a
missing file. -/
theorem C6_overwrite_idempotent_witness :
    fileAfter (some "old") (scriptTrace stubOk).1 =
      fileAfter Option.none (scriptTrace stubOk).1 ∧
    fileAfter (fileAfter (some "old") (scriptTrace stubOk).1) (scriptTrace stubOk).1 =
      fileAfter (some "old") (scriptTrace stubOk).1 :=
  C6_overwrite_idempotent stubOk (some "old") Option.none [sampleRow] sampleRow rfl rfl

/-- C7: every run ends with the output file handle released, whether the
load fails, the collection is empty, serialization fails partway, or
everything succeeds. -/
theorem C7_handle_released (load : String → String → Except PyErr (List PyVal)) :
    handleAfter (scriptTrace load).1 = false := by
  rcases hl : load dataset_name "train" with e | rows
  · simp [scriptTrace, hl, handleAfter]
  · rcases hr : rows[0]? with _ | row
    · simp [scriptTrace, hl, hr, handleAfter]
    · rcases hp : (emit row 0).2 <;> simp [scriptTrace, hl, hr, hp, handleAfter]

/-- Witness for C7: the handle is closed even when serialization fails. -/
theorem C7_handle_released_witness : handleAfter (scriptTrace stubBad).1 = false :=
  C7_handle_released stubBad

/-- C8: when the loaded record holds a non-serializable value, the run ends
with the TypeError and nothing more happens after the close: no recovery,
no retry, no further write. -/
theorem C8_typeerror_propagates (load : String → String → Except PyErr (List PyVal))
    (rows : List PyVal) (row : PyVal)
    (hl : load dataset_name "train" = Except.ok rows)
    (hr : rows[0]? = some row)
    (hbad : serializable row = false) :
    (scriptTrace load).2 = some PyErr.typeErr ∧
    (scriptTrace load).1 = [Event.loadCall dataset_name "train",
      Event.printOut (String.mk (pyRepr row)), Event.openWrite out_path,
      Event.fileWrite (String.mk (emit row 0).1), Event.closeFile] := by
  rw [scriptTrace_typeErr load rows row hl hr hbad]
  exact ⟨rfl, rfl⟩

/-- Witness for C8: the stub whose row holds an opaque object. -/
theorem C8_typeerror_propagates_witness :
    (scriptTrace stubBad).2 = some PyErr.typeErr ∧
    (scriptTrace stubBad).1 = [Event.loadCall dataset_name "train",
      Event.printOut (String.mk (pyRepr badRow)), Event.openWrite out_path,
      Event.fileWrite (String.mk (emit badRow 0).1), Event.closeFile] :=
  C8_typeerror_propagates stubBad [badRow] badRow rfl rfl rfl

/-- C9: on every successful run the trace is exactly load, print, open,
write, close — the textual rendering of the record reaches stdout before
the file is opened — and stdout holds that rendering followed by a
newline. -/
theorem C9_stdout_order (load : String → String → Except PyErr (List PyVal))
    (rows : List PyVal) (row : PyVal)
    (hl : load dataset_name "train" = Except.ok rows)
    (hr : rows[0]? = some row)
    (hs : serializable row = true) :
    (scriptTrace load).1 = [Event.loadCall dataset_name "train",
      Event.printOut (String.mk (pyRepr row)), Event.openWrite out_path,
      Event.fileWrite (String.mk (dumps row 0)), Event.closeFile] ∧
    stdoutAfter (scriptTrace load).1 = String.mk (pyRepr row) ++ "\n" := by
  rw [scriptTrace_ok load rows row hl hr hs]
  refine ⟨rfl, ?_⟩
  simp [stdoutAfter, empty_append_str]

/-- Witness for C9: the concrete stub. -/
theorem C9_stdout_order_witness :
    (scriptTrace stubOk).1 = [Event.loadCall dataset_name "train",
      Event.printOut (String.mk (pyRepr sampleRow)), Event.openWrite out_path,
      Event.fileWrite (String.mk (dumps sampleRow 0)), Event.closeFile] ∧
    stdoutAfter (scriptTrace stubOk).1 = String.mk (pyRepr sampleRow) ++ "\n" :=
  C9_stdout_order stubOk [sampleRow] sampleRow rfl rfl rfl

/-- C10: when serialization of the loaded record fails, the file was
already opened in truncating mode, so whatever the prior contents were,
the file ends up holding exactly the partial chunk emitted before the
failure. -/
theorem C10_truncate_then_fail (load : String → String → Except PyErr (List PyVal))
    (rows : List PyVal) (row : PyVal) (init : Option String)
    (hl : load dataset_name "train" = Except.ok rows)
    (hr : rows[0]? = some row)
    (hbad : serializable row = false) :
    fileAfter init (scriptTrace load).1 = some (String.mk (emit row 0).1) := by
  rw [scriptTrace_typeErr load rows row hl hr hbad]
  exact fileAfter_row_events init _ _ _

/-- Witness for C10: prior contents are destroyed and a partial JSON
fragment (open brace, newline, indented quoted key, colon, space) is left
behind. -/
theorem C10_truncate_then_fail_witness :
    fileAfter (some "old") (scriptTrace stubBad).1 = some "\x7b\n  \"a\": " ∧
    some "\x7b\n  \"a\": " ≠ some "old" :=
  ⟨(C10_truncate_then_fail stubBad [badRow] badRow (some "old") rfl rfl rfl).trans (by decide),
    by decide⟩

end SeeSample
